import Mathlib

/-!
# Verification of the Connect-4 tournament platform

Shallow embedding of the Connect-4 round-robin tournament platform
(frontend in TypeScript under `src/frontend` and `src/unnamed`; the
backend Tournament Coordinator is described by the specification).
Pure frontend logic (dashboard merge, winner display, URL endpoint
normalization, board highlighting) is translated directly from the
TypeScript source.  Backend components absent from the repository
snapshot (rules engine, game driver, match runner, round scheduler,
championship controller) are modelled from the specification, as
marked in the doc comment of each such definition.

The file is organised as definitions first, then the theorems.
-/

set_option maxHeartbeats 1000000
set_option maxRecDepth 10000

namespace C4

/-! ## Definitions: board and rules engine

The board is a 6-row by 7-column grid, row 0 at the top, encoded as a
list of rows of cell values (0 = empty, 1 = player 1, 2 = player 2),
exactly the `number[][]` representation used throughout the frontend.
-/

/-- A board: list of rows (row 0 is the top row), each row a list of cells. -/
abbrev Board := List (List Nat)

/-- Cell access `board[r][c]`, defaulting to 0 outside the grid. -/
def cellAt (b : Board) (r c : Nat) : Nat :=
  (b.getD r []).getD c 0

/-- The top-row cell of column `c`: `board[0][c]`. -/
def topCell (b : Board) (c : Nat) : Nat :=
  cellAt b 0 c

/-- Modelled from the spec: `legal_moves(board)` from §4.1 of the spec
(the backend rules engine `game_logic.py` is not in the repository
snapshot): the set of column indices whose top-row cell is empty. -/
def legalMoves (b : Board) : List Nat :=
  (List.range 7).filter (fun c => topCell b c == 0)

/-- Modelled from the spec: the gravity landing row for a drop in
column `c` — the lowest row (searching upward from row 5) whose cell
in column `c` is empty; `none` when the column has no empty cell. -/
def findLanding (b : Board) (c : Nat) : Option Nat :=
  (List.range 6).reverse.find? (fun r => cellAt b r c == 0)

/-- Writing value `v` into cell `(r, c)` of the board. -/
def setCell (b : Board) (r c v : Nat) : Board :=
  b.set r ((b.getD r []).set c v)

/-- Modelled from the spec: `apply(board, col, player)` from §4.1 —
drops a piece for `player` into column `col`, returning the new board
and the landed row, and failing when the column is full. -/
def applyMove (b : Board) (c p : Nat) : Option (Board × Nat) :=
  match findLanding b c with
  | none => none
  | some r => some (setCell b r c p, r)

/-- A board is gap-free when no empty cell sits above the top of a
column's stack incorrectly: within the 6 rows, a non-empty cell always
has a non-empty cell directly below it (row indices grow downward). -/
def NoGaps (b : Board) : Prop :=
  ∀ c, c < 7 → ∀ r, r < 5 → cellAt b r c ≠ 0 → cellAt b (r + 1) c ≠ 0

instance (b : Board) : Decidable (NoGaps b) := by
  unfold NoGaps
  infer_instance

/-- `Board.tsx` line 43: a cell of column `c` is rendered as playable
(highlighted) exactly when the click-enabled condition holds and
`board[0][colIndex] === 0`. -/
def columnHighlight (canMove : Bool) (b : Board) (c : Nat) : Bool :=
  canMove && (topCell b c == 0)

/-- The empty 6×7 board. -/
def emptyBoard : Board :=
  List.replicate 6 (List.replicate 7 0)

/-! ## Definitions: match verdict (frontend display logic)

`getStatusMessage` in `dashboard.tsx` (championship battle page,
lines 979–996) and `getChampionshipStatusMessage` in the battle page
of `src/unnamed/part_002` (lines 1254–1274) both decide the match
outcome from the two point totals with the same comparison chain. -/

/-- The three possible match outcomes reported by the frontend. -/
inductive MatchVerdict where
  | teamAWin
  | teamBWin
  | drawn
  deriving DecidableEq, Repr

/-- The verdict computed by `getStatusMessage` for a finished match:
`teamAPoints > teamBPoints` → team A wins, else
`teamBPoints > teamAPoints` → team B wins, else a draw. -/
def matchVerdict (pa pb : ℚ) : MatchVerdict :=
  if pb < pa then MatchVerdict.teamAWin
  else if pa < pb then MatchVerdict.teamBWin
  else MatchVerdict.drawn

/-! ## Definitions: game-winner normalization (frontend display logic)

`getGameStatusMessage` in `dashboard.tsx` (lines 998–1021) maps the
raw winner player index (1 or 2) of a finished game, together with the
game's first mover, to the team shown as the game winner. -/

/-- The two teams of a championship match. -/
inductive Team where
  | teamA
  | teamB
  deriving DecidableEq, Repr

/-- The opponent of a team. -/
def Team.other : Team → Team
  | Team.teamA => Team.teamB
  | Team.teamB => Team.teamA

/-- The team playing as player index `p` (1 = first mover, 2 = second
mover) in a game whose first mover is `first`. -/
def teamOfPlayer (first : Team) (p : Nat) : Team :=
  if p = 1 then first else first.other

/-- The winning team named by `getGameStatusMessage` for a finished
game, translated branch for branch from `dashboard.tsx` lines
1008–1018 (`none` corresponds to the draw message). -/
def reportedGameWinner (w : Nat) (first : Team) : Option Team :=
  if w = 1 ∧ first = Team.teamA then some Team.teamA
  else if w = 1 ∧ first = Team.teamB then some Team.teamB
  else if w = 2 ∧ first = Team.teamA then some Team.teamB
  else if w = 2 ∧ first = Team.teamB then some Team.teamA
  else none

/-! ## Definitions: dashboard schedule state and the `match_update` merge

Translated from the `match_update` case of the dashboard WebSocket
handler, `dashboard.tsx` lines 205–242.  The handler looks up the
first round whose match list contains the event's `match_id`, then the
first match with that id inside it, and overwrites only that match's
`status`, `winner`, `team_a_points` and `team_b_points` fields; when
no scheduled match carries the id it returns the previous state. -/

/-- A match entry of the dashboard schedule (`interface Match`). -/
structure DMatch where
  match_id : String
  team_a : String
  team_b : String
  status : String
  winner : Option String
  team_a_points : ℚ
  team_b_points : ℚ
  deriving DecidableEq, Repr

/-- A round of the dashboard schedule (`interface Round`; the
TypeScript field `matches` is a reserved word in Lean and is called
`matchList` here). -/
structure DRound where
  round : Nat
  matchList : List DMatch
  deriving DecidableEq, Repr

/-- The dashboard schedule state (`interface Schedule`), as its list of rounds. -/
abbrev Schedule := List DRound

/-- A `match_update` WebSocket event.  `none` in an outer `Option`
plays the role of an absent (`undefined`) JSON field; the inner
`Option` of `winner` is JavaScript's `null`. -/
structure MatchUpdateEvent where
  match_id : String
  status : Option String
  winner : Option (Option String)
  team_a_points : Option ℚ
  team_b_points : Option ℚ

/-- Field overwrite applied to the found match:
`status: data.status || old` (so an absent or empty string keeps the
old value), and `data.x !== undefined ? data.x : old` for the other
three fields. -/
def mergeFields (e : MatchUpdateEvent) (m : DMatch) : DMatch :=
  { m with
    status := match e.status with
      | some s => if s = "" then m.status else s
      | none => m.status
    winner := e.winner.getD m.winner
    team_a_points := e.team_a_points.getD m.team_a_points
    team_b_points := e.team_b_points.getD m.team_b_points }

/-- The `match_update` handler of `dashboard.tsx`: find the first
round containing a match with the event's id, then the first such
match in it, replace that single entry by its field-merge with the
event, and leave everything else (and the state on a miss) alone. -/
def applyMatchUpdate (s : Schedule) (e : MatchUpdateEvent) : Schedule :=
  if s.isEmpty then s
  else
    match s.findIdx? (fun r => r.matchList.any (fun m => m.match_id == e.match_id)) with
    | none => s
    | some ri =>
      match s[ri]? with
      | none => s
      | some rnd =>
        match rnd.matchList.findIdx? (fun m => m.match_id == e.match_id) with
        | none => s
        | some mi =>
          match rnd.matchList[mi]? with
          | none => s
          | some m =>
            s.set ri { rnd with matchList := rnd.matchList.set mi (mergeFields e m) }

/-- The match entry at round position `i`, match position `j`. -/
def matchAt (s : Schedule) (i j : Nat) : Option DMatch :=
  (s[i]?).bind (fun r => r.matchList[j]?)

/-- A one-round sample schedule used to instantiate the frame theorem. -/
def sampleSchedule : Schedule :=
  [{ round := 1,
     matchList := [
       { match_id := "m1", team_a := "X", team_b := "Y", status := "scheduled",
         winner := none, team_a_points := 0, team_b_points := 0 },
       { match_id := "m2", team_a := "X", team_b := "Z", status := "scheduled",
         winner := none, team_a_points := 0, team_b_points := 0 }] }]

/-- A `match_update` event whose id matches no scheduled match. -/
def missEvent : MatchUpdateEvent :=
  { match_id := "zz", status := some "finished", winner := some (some "team_a"),
    team_a_points := some 4, team_b_points := some 0 }

/-! ## Definitions: agent endpoint normalization

`handleSubmit` in the registration page (`src/unnamed/part_001` lines
40–55) and `startBattle` in the battle pages (`src/unnamed/part_002`
lines 1138–1157) normalize a user-supplied agent URL: trim it and, if
it does not already contain `/api/connect4-move`, strip one trailing
slash and append that path.  JavaScript strings are embedded as
`List Char`, with `trim`, `includes`, `endsWith` and `slice(0, -1)`
spelled out below. -/

/-- JavaScript whitespace characters stripped by `String.prototype.trim`
(the ASCII ones; the choice is irrelevant to URL characters). -/
def wsChar (c : Char) : Bool :=
  c == ' ' || c == '\t' || c == '\n' || c == '\r' ||
    c == Char.ofNat 11 || c == Char.ofNat 12

/-- Dropping leading whitespace. -/
def dropWS : List Char → List Char
  | [] => []
  | c :: cs => if wsChar c then dropWS cs else c :: cs

/-- Dropping trailing whitespace. -/
def trimRight (l : List Char) : List Char :=
  (dropWS l.reverse).reverse

/-- `String.prototype.trim`: drop leading and trailing whitespace. -/
def jsTrim (l : List Char) : List Char :=
  trimRight (dropWS l)

/-- `String.prototype.includes`: `needle` occurs contiguously in `hay`. -/
def isSubList (needle : List Char) : List Char → Bool
  | [] => needle.isEmpty
  | c :: rest => needle.isPrefixOf (c :: rest) || isSubList needle rest

/-- The appended agent path `/api/connect4-move`. -/
def movePath : List Char :=
  "/api/connect4-move".toList

/-- `endpoint.endsWith('/') ? endpoint.slice(0, -1) : endpoint`. -/
def stripTrailingSlash (l : List Char) : List Char :=
  if l.getLast? = some '/' then l.dropLast else l

/-- The registration-page normalization (`handleSubmit`): trim, then
append `/api/connect4-move` (after stripping one trailing slash)
unless the trimmed URL already contains that path. -/
def normalizeEndpoint (s : List Char) : List Char :=
  let t := jsTrim s
  if isSubList movePath t then t
  else stripTrailingSlash t ++ movePath

/-- The battle-page normalization (`startBattle`): identical except
that an empty trimmed URL is left alone (the `ai1Url &&` guard; the
page then turns it into `null`). -/
def normalizeBattleUrl (s : List Char) : List Char :=
  let t := jsTrim s
  if t.isEmpty then t
  else if isSubList movePath t then t
  else stripTrailingSlash t ++ movePath

/-! ## Definitions: round-robin schedule (circle method)

Modelled from the spec §4.5: the backend Round Scheduler is not in the
repository snapshot.  The circle method fixes team 0 and rotates the
remaining slots; for an odd team count a phantom BYE team (index `n`)
is added and its pairings are dropped from the rounds. -/

/-- Modelled from the spec: the number of circle-method slots — the
team count itself when even, one more (the phantom BYE) when odd. -/
def circleSize (n : Nat) : Nat :=
  if n % 2 = 0 then n else n + 1

/-- Modelled from the spec: the team sitting in slot `i` in round `r`
of the circle method with `m` slots: slot 0 is the fixed team 0, the
other `m - 1` slots rotate by `r`. -/
def slotTeam (m r i : Nat) : Nat :=
  if i = 0 then 0 else 1 + ((i - 1 + r) % (m - 1))

/-- Modelled from the spec: the pairings of round `r` — slot `i`
against slot `m - 1 - i`. -/
def roundPairs (m r : Nat) : List (Nat × Nat) :=
  (List.range (m / 2)).map (fun i => (slotTeam m r i, slotTeam m r (m - 1 - i)))

/-- Modelled from the spec: the full round-robin schedule for `n`
teams: `circleSize n - 1` rounds, each with the BYE pairings (those
mentioning the phantom index `n`, only present for odd `n`) removed. -/
def roundRobinSchedule (n : Nat) : List (List (Nat × Nat)) :=
  (List.range (circleSize n - 1)).map (fun r =>
    (roundPairs (circleSize n) r).filter (fun p => p.1 < n && p.2 < n))

/-- How many scheduled matches pair teams `i` and `j` (in either order). -/
def pairCount (n i j : Nat) : Nat :=
  ((roundRobinSchedule n).flatten).countP
    (fun p => (p.1 == i && p.2 == j) || (p.1 == j && p.2 == i))

/-! ## Definitions: game driver and match runner (time control, scoring)

Modelled from the spec §4.3/§4.4: the backend Game Driver and Match
Runner are not in the repository snapshot.  Agent behaviour enters the
model as an oracle: for each prospective call, the wall-clock the
agent would take and whether the returned move wins, merely continues
the game, or is a failure (timeout / transport / malformed / illegal
are all alike to the driver: one failure forfeits the turn). -/

/-- Modelled from the spec: what an agent call would produce. -/
inductive AgentReply where
  | winMove
  | contMove
  | failure
  deriving DecidableEq, Repr

/-- Per-team match banks, in seconds. -/
structure Banks where
  bankA : ℚ
  bankB : ℚ
  deriving DecidableEq, Repr

/-- The bank of one team. -/
def Banks.get (bk : Banks) : Team → ℚ
  | Team.teamA => bk.bankA
  | Team.teamB => bk.bankB

/-- Deducting `x` seconds from one team's bank. -/
def Banks.sub (bk : Banks) (t : Team) (x : ℚ) : Banks :=
  match t with
  | Team.teamA => { bk with bankA := bk.bankA - x }
  | Team.teamB => { bk with bankB := bk.bankB - x }

/-- Modelled from the spec: the per-turn cap of 10 s (§4.3). -/
def perTurnCap : ℚ := 10

/-- Modelled from the spec: the per-team match bank of 240 s (§4.4). -/
def matchBankInit : ℚ := 240

/-- Book-keeping record of one issued agent call. -/
structure CallRecord where
  caller : Team
  deadline : ℚ
  elapsed : ℚ
  bankBefore : ℚ
  bankAfter : ℚ
  deriving DecidableEq, Repr

/-- Terminal outcome of one game, in team identities. -/
inductive GameResult where
  | winA
  | winB
  | drawn
  | forfeitA
  | forfeitB
  deriving DecidableEq, Repr

/-- The forfeit outcome of a team. -/
def forfeitOf : Team → GameResult
  | Team.teamA => GameResult.forfeitA
  | Team.teamB => GameResult.forfeitB

/-- The win outcome of a team. -/
def winOf : Team → GameResult
  | Team.teamA => GameResult.winA
  | Team.teamB => GameResult.winB

/-- The wall-clock charged for a call: the raw time the agent takes,
cut off at the deadline `min(per_turn_cap, bank)` (§4.3). -/
def callElapsed (banks : Banks) (mover : Team) (raw : ℚ) : ℚ :=
  min raw (min perTurnCap (banks.get mover))

/-- The banks after a call: the charged elapsed is deducted from the
mover's bank, regardless of the call's outcome (§4.3). -/
def callBanksAfter (banks : Banks) (mover : Team) (raw : ℚ) : Banks :=
  banks.sub mover (callElapsed banks mover raw)

/-- The book-keeping record of a call under §4.3's deadline policy. -/
def mkCall (banks : Banks) (mover : Team) (raw : ℚ) : CallRecord :=
  { caller := mover,
    deadline := min perTurnCap (banks.get mover),
    elapsed := callElapsed banks mover raw,
    bankBefore := banks.get mover,
    bankAfter := (callBanksAfter banks mover raw).get mover }

/-- Modelled from the spec §4.3: the game driver loop.  At the start
of each turn: a mover with an exhausted bank forfeits immediately with
no agent call; otherwise the call is issued under deadline
`min(per_turn_cap, bank)`, the wall-clock elapsed (cut off at the
deadline) is deducted from the mover's bank regardless of the
outcome, and a failure or deadline overrun forfeits the game.  An
exhausted oracle stands for a filled board: a draw. -/
def playGame (banks : Banks) (mover : Team) :
    List (ℚ × AgentReply) → GameResult × Banks × List CallRecord
  | [] => (GameResult.drawn, banks, [])
  | (raw, reply) :: rest =>
    if banks.get mover = 0 then
      (forfeitOf mover, banks, [])
    else
      match reply with
      | AgentReply.failure =>
        (forfeitOf mover, callBanksAfter banks mover raw, [mkCall banks mover raw])
      | AgentReply.winMove =>
        if min perTurnCap (banks.get mover) < raw then
          (forfeitOf mover, callBanksAfter banks mover raw, [mkCall banks mover raw])
        else (winOf mover, callBanksAfter banks mover raw, [mkCall banks mover raw])
      | AgentReply.contMove =>
        if min perTurnCap (banks.get mover) < raw then
          (forfeitOf mover, callBanksAfter banks mover raw, [mkCall banks mover raw])
        else
          ((playGame (callBanksAfter banks mover raw) mover.other rest).1,
           (playGame (callBanksAfter banks mover raw) mover.other rest).2.1,
           mkCall banks mover raw ::
             (playGame (callBanksAfter banks mover raw) mover.other rest).2.2)

/-- Modelled from the spec §4.3: game scoring — win 1/0, draw 0.5
each, forfeit 0 to the forfeiter. -/
def gamePoints : GameResult → ℚ × ℚ
  | GameResult.winA => (1, 0)
  | GameResult.winB => (0, 1)
  | GameResult.drawn => (1/2, 1/2)
  | GameResult.forfeitA => (0, 1)
  | GameResult.forfeitB => (1, 0)

/-- A sealed per-game record of a match. -/
structure GameRecord where
  game_index : Nat
  first_mover : Team
  result : Option GameResult
  points_a : ℚ
  points_b : ℚ
  banksBefore : Banks
  banksAfter : Banks
  deriving DecidableEq, Repr

/-- The points a game record awards to one team. -/
def GameRecord.pointsFor (g : GameRecord) : Team → ℚ
  | Team.teamA => g.points_a
  | Team.teamB => g.points_b

/-- Match lifecycle states (§3). -/
inductive MatchStatus where
  | scheduled
  | in_progress
  | finished
  | aborted
  deriving DecidableEq, Repr

/-- A match record: status, sealed games, point totals. -/
structure MatchRecord where
  status : MatchStatus
  games : List GameRecord
  points_a : ℚ
  points_b : ℚ
  deriving DecidableEq, Repr

/-- The per-match spectator events relevant here. -/
inductive MatchEvent where
  | game_start (idx : Nat)
  | game_complete (idx : Nat)
  deriving DecidableEq, Repr

/-- Modelled from the spec §4.4: first-mover rotation A, B, A, B for
games 1–4. -/
def firstMoverOf (idx : Nat) : Team :=
  if idx % 2 = 1 then Team.teamA else Team.teamB

/-- Modelled from the spec §4.4: outcome and ending banks of game
`idx`: a team whose bank is already zero at the game start concedes
the game to the opponent without play (and without consuming time);
otherwise the game driver runs. -/
def gameOutcome (banks : Banks) (idx : Nat)
    (oracle : List (ℚ × AgentReply)) : GameResult × Banks :=
  if banks.get Team.teamA = 0 then (forfeitOf Team.teamA, banks)
  else if banks.get Team.teamB = 0 then (forfeitOf Team.teamB, banks)
  else ((playGame banks (firstMoverOf idx) oracle).1,
        (playGame banks (firstMoverOf idx) oracle).2.1)

/-- Modelled from the spec §4.4: the match runner's game loop — each
game is played (or conceded) from the banks the previous game left,
its record sealed with its points, and `game_start`/`game_complete`
events emitted in every case. -/
def runGames (banks : Banks) (idx : Nat) :
    List (List (ℚ × AgentReply)) → List GameRecord × Banks × List MatchEvent
  | [] => ([], banks, [])
  | oracle :: rest =>
    let res := (gameOutcome banks idx oracle).1
    let banks' := (gameOutcome banks idx oracle).2
    let g : GameRecord :=
      { game_index := idx, first_mover := firstMoverOf idx, result := some res,
        points_a := (gamePoints res).1, points_b := (gamePoints res).2,
        banksBefore := banks, banksAfter := banks' }
    (g :: (runGames banks' (idx + 1) rest).1,
     (runGames banks' (idx + 1) rest).2.1,
     MatchEvent.game_start idx :: MatchEvent.game_complete idx ::
       (runGames banks' (idx + 1) rest).2.2)

/-- Agent behaviour for the four games of a match. -/
structure MatchOracle where
  g1 : List (ℚ × AgentReply)
  g2 : List (ℚ × AgentReply)
  g3 : List (ℚ × AgentReply)
  g4 : List (ℚ × AgentReply)

/-- Modelled from the spec §4.4: a full match — four games from fresh
240 s banks, records sealed as `finished`, totals summed over the
games. -/
def runMatch (o : MatchOracle) : MatchRecord × Banks × List MatchEvent :=
  let init : Banks := { bankA := matchBankInit, bankB := matchBankInit }
  let gs := (runGames init 1 [o.g1, o.g2, o.g3, o.g4]).1
  ({ status := MatchStatus.finished,
     games := gs,
     points_a := (gs.map GameRecord.points_a).sum,
     points_b := (gs.map GameRecord.points_b).sum },
   (runGames init 1 [o.g1, o.g2, o.g3, o.g4]).2.1,
   (runGames init 1 [o.g1, o.g2, o.g3, o.g4]).2.2)

/-- Modelled from the spec §4.4: a match aborted by the fatal setup
condition (neither team reachable for game 1): status `aborted`, both
teams receive 0 points for all four games. -/
def abortedMatch : MatchRecord :=
  { status := MatchStatus.aborted,
    games := (List.range 4).map (fun k =>
      { game_index := k + 1, first_mover := firstMoverOf (k + 1), result := none,
        points_a := 0, points_b := 0,
        banksBefore := { bankA := matchBankInit, bankB := matchBankInit },
        banksAfter := { bankA := matchBankInit, bankB := matchBankInit } }),
    points_a := 0, points_b := 0 }

/-- A match record is sealed when its status is terminal. -/
def MatchRecord.sealed (M : MatchRecord) : Prop :=
  M.status = MatchStatus.finished ∨ M.status = MatchStatus.aborted

/-- The banks thread through a list of game records starting from
`bk`: each game starts from the banks the previous game ended with. -/
def BankChain : Banks → List GameRecord → Prop
  | _, [] => True
  | bk, g :: gs => g.banksBefore = bk ∧ BankChain g.banksAfter gs

/-- The `game_start`/`game_complete` event stream for `n` games
beginning at index `idx`. -/
def matchEvents : Nat → Nat → List MatchEvent
  | _, 0 => []
  | idx, Nat.succ n =>
    MatchEvent.game_start idx :: MatchEvent.game_complete idx :: matchEvents (idx + 1) n

/-! ## Definitions: championship controller

Modelled from the spec §4.5/§4.8: the backend Championship Controller
is not in the repository snapshot.  Per design note §9(a) the spec
fixes a manual start (minimum 2 teams, maximum 20); the registration
page's "starts automatically when 19 teams are registered" blurb is
display copy only.  The frontend guard of the start button
(`startChampionship`, `dashboard.tsx` lines 65–91) is translated from
the source. -/

/-- Championship lifecycle states. -/
inductive ChampStatus where
  | waiting
  | in_progress
  | finished
  deriving DecidableEq, Repr

/-- Controller state: lifecycle status and registered team count. -/
structure ChampState where
  status : ChampStatus
  teamCount : Nat
  deriving DecidableEq, Repr

/-- Commands the controller reacts to. -/
inductive ChampCmd where
  | register
  | start
  | reset
  deriving DecidableEq, Repr

/-- Modelled from the spec: the team-count upper bound (§4.5). -/
def maxTeams : Nat := 20

/-- Modelled from the spec: the start requires at least 2 teams (§4.5). -/
def minTeamsToStart : Nat := 2

/-- Modelled from the spec §4.8: `register` adds a team only while
waiting and below the cap; `start` moves `waiting` to `in_progress`
only with at least 2 teams; `reset` returns to the initial state.
Registration never changes the lifecycle status. -/
def champStep (s : ChampState) : ChampCmd → ChampState
  | ChampCmd.register =>
    if s.status = ChampStatus.waiting ∧ s.teamCount < maxTeams then
      { s with teamCount := s.teamCount + 1 }
    else s
  | ChampCmd.start =>
    if s.status = ChampStatus.waiting ∧ minTeamsToStart ≤ s.teamCount then
      { s with status := ChampStatus.in_progress }
    else s
  | ChampCmd.reset => { status := ChampStatus.waiting, teamCount := 0 }

/-- `startChampionship` in `dashboard.tsx` posts the start command
only when at least two teams are registered and the status is still
`waiting` (the two early returns, lines 66–74). -/
def frontendSendsStart (st : String) (teamCount : Nat) : Bool :=
  if teamCount < 2 then false
  else if st ≠ "waiting" then false
  else true

/-! ## Theorems -/

theorem noGaps_column_full {b : Board} (h : NoGaps b) {c : Nat} (hc : c < 7)
    (htop : topCell b c ≠ 0) : ∀ r, r < 6 → cellAt b r c ≠ 0 := by
  intro r hr
  induction r with
  | zero => exact htop
  | succ n ih =>
    have hn : n < 5 := by omega
    exact h c hc n hn (ih (by omega))

theorem findLanding_eq_none_iff (b : Board) (c : Nat) :
    findLanding b c = none ↔ ∀ r, r < 6 → cellAt b r c ≠ 0 := by
  unfold findLanding
  rw [List.find?_eq_none]
  constructor
  · intro h r hr h0
    have hmem : r ∈ (List.range 6).reverse := by
      rw [List.mem_reverse, List.mem_range]; exact hr
    exact h r hmem (by simp [h0])
  · intro h r hmem hp
    rw [List.mem_reverse, List.mem_range] at hmem
    exact h r hmem (by simpa using hp)

/-- C8: for a gap-free board and a column index `c < 7`: `c` is a
legal move exactly when the top-row cell of column `c` is empty, the
gravity drop `applyMove` fails exactly when that top-row cell is
non-empty, and the frontend offers column `c` as playable (highlights
it, with the click-enabled condition true) exactly when the top-row
cell is empty. -/
theorem rules_engine_correct (b : Board) (c p : Nat) (hg : NoGaps b) (hc : c < 7) :
    (c ∈ legalMoves b ↔ topCell b c = 0) ∧
    (applyMove b c p = none ↔ topCell b c ≠ 0) ∧
    (columnHighlight true b c = (topCell b c == 0)) := by
  refine ⟨?_, ?_, ?_⟩
  · unfold legalMoves
    simp [List.mem_filter, List.mem_range, hc]
  · unfold applyMove
    constructor
    · intro h
      cases hmatch : findLanding b c with
      | none =>
        exact fun h0 => (findLanding_eq_none_iff b c).mp hmatch 0 (by omega) h0
      | some r => rw [hmatch] at h; exact absurd h (by simp)
    · intro htop
      have hnone : findLanding b c = none :=
        (findLanding_eq_none_iff b c).mpr (noGaps_column_full hg hc htop)
      rw [hnone]
  · simp [columnHighlight]

/-- Witness for C8: the empty 6×7 board, column 3, player 1. -/
theorem rules_engine_correct_witness :
    NoGaps emptyBoard ∧ (3 : Nat) < 7 ∧
    ((3 ∈ legalMoves emptyBoard ↔ topCell emptyBoard 3 = 0) ∧
      (applyMove emptyBoard 3 1 = none ↔ topCell emptyBoard 3 ≠ 0) ∧
      (columnHighlight true emptyBoard 3 = (topCell emptyBoard 3 == 0))) :=
  ⟨by decide, by decide, rules_engine_correct emptyBoard 3 1 (by decide) (by decide)⟩

/-- C6: the frontend reports team A as match winner exactly when its
total is strictly larger, team B exactly when team B's total is
strictly larger, and a draw exactly when the totals are equal. -/
theorem matchVerdict_correct (pa pb : ℚ) :
    (matchVerdict pa pb = MatchVerdict.teamAWin ↔ pb < pa) ∧
    (matchVerdict pa pb = MatchVerdict.teamBWin ↔ pa < pb) ∧
    (matchVerdict pa pb = MatchVerdict.drawn ↔ pa = pb) := by
  unfold matchVerdict
  refine ⟨?_, ?_, ?_⟩ <;> split_ifs with h1 h2 <;> simp_all <;> linarith

/-- C7: for every combination of first mover and winning player index,
the team reported as game winner by `getGameStatusMessage` is the team
identity of the side that actually played that player index — in
particular it is correct when the first mover was team B. -/
theorem reportedGameWinner_correct (w : Nat) (first : Team)
    (hw : w = 1 ∨ w = 2) :
    reportedGameWinner w first = some (teamOfPlayer first w) := by
  rcases hw with h | h <;> subst h <;> cases first <;> rfl

/-- Witness for C7 at the interesting corner: first mover team B,
player 2 (i.e. team A) wins, and team A is reported. -/
theorem reportedGameWinner_correct_witness :
    reportedGameWinner 2 Team.teamB = some (teamOfPlayer Team.teamB 2) :=
  reportedGameWinner_correct 2 Team.teamB (Or.inr rfl)

theorem applyMatchUpdate_cases (s : Schedule) (e : MatchUpdateEvent) :
    applyMatchUpdate s e = s ∨
    ∃ ri rnd mi m, ri < s.length ∧ s[ri]? = some rnd ∧
      mi < rnd.matchList.length ∧ rnd.matchList[mi]? = some m ∧
      m.match_id = e.match_id ∧
      applyMatchUpdate s e =
        s.set ri { rnd with matchList := rnd.matchList.set mi (mergeFields e m) } := by
  unfold applyMatchUpdate
  split
  · exact Or.inl rfl
  split
  · exact Or.inl rfl
  next ri houter =>
  split
  · exact Or.inl rfl
  next rnd hrnd =>
  split
  · exact Or.inl rfl
  next mi hinner =>
  split
  · exact Or.inl rfl
  next m hm =>
  refine Or.inr ⟨ri, rnd, mi, m, ?_, hrnd, ?_, hm, ?_, rfl⟩
  · rcases List.findIdx?_eq_some_iff_getElem.mp houter with ⟨h, _, _⟩
    exact h
  · rcases List.findIdx?_eq_some_iff_getElem.mp hinner with ⟨h, _, _⟩
    exact h
  · rcases List.findIdx?_eq_some_iff_getElem.mp hinner with ⟨h, hp, _⟩
    have hgm : rnd.matchList[mi]? = some (rnd.matchList[mi]) := List.getElem?_eq_getElem h
    rw [hgm] at hm
    cases hm
    simpa using hp

theorem applyMatchUpdate_miss (s : Schedule) (e : MatchUpdateEvent)
    (h : ∀ r ∈ s, ∀ m ∈ r.matchList, m.match_id ≠ e.match_id) :
    applyMatchUpdate s e = s := by
  rcases applyMatchUpdate_cases s e with heq | ⟨ri, rnd, mi, m, hri, hrnd, hmi, hm, hid, _⟩
  · exact heq
  · exfalso
    have hrmem : rnd ∈ s := List.getElem?_mem hrnd
    have hmmem : m ∈ rnd.matchList := List.getElem?_mem hm
    exact h rnd hrmem m hmmem hid

theorem lt_length_of_getElem?_some {α : Type} {l : List α} {i : Nat} {a : α}
    (h : l[i]? = some a) : i < l.length := by
  by_contra hge
  rw [List.getElem?_eq_none (Nat.le_of_not_lt hge)] at h
  cases h

theorem matchAt_set_other (s : Schedule) (ri mi : Nat) (rnd : DRound)
    (x : DMatch) (hrnd : s[ri]? = some rnd)
    (i j : Nat) (hij : ¬(i = ri ∧ j = mi)) :
    matchAt (s.set ri { rnd with matchList := rnd.matchList.set mi x }) i j =
      matchAt s i j := by
  have hlt : ri < s.length := lt_length_of_getElem?_some hrnd
  unfold matchAt
  by_cases hi : i = ri
  · subst hi
    have hj : j ≠ mi := fun hj => hij ⟨rfl, hj⟩
    rw [List.getElem?_set_self hlt, hrnd]
    show (rnd.matchList.set mi x)[j]? = rnd.matchList[j]?
    exact List.getElem?_set_ne (fun h => hj h.symm)
  · rw [List.getElem?_set_ne (fun h => hi h.symm)]

/-- C9: applying a `match_update` event to the dashboard schedule
keeps the round structure (number of rounds, each round's number and
match count) intact; every position either keeps its old match entry
or — at the event's `match_id`, in which case every other position is
untouched — receives the old entry merged with the event, which
changes only the `status`, `winner`, `team_a_points` and
`team_b_points` fields; and an event whose `match_id` occurs nowhere
leaves the schedule entirely unchanged. -/
theorem match_update_frame (s : Schedule) (e : MatchUpdateEvent) :
    ((applyMatchUpdate s e).length = s.length ∧
      ∀ i : Nat, ((applyMatchUpdate s e)[i]?).map DRound.round = (s[i]?).map DRound.round ∧
        ((applyMatchUpdate s e)[i]?).map (fun r : DRound => r.matchList.length) =
          (s[i]?).map (fun r : DRound => r.matchList.length)) ∧
    (∀ i j : Nat, matchAt (applyMatchUpdate s e) i j = matchAt s i j ∨
      ∃ m, matchAt s i j = some m ∧ m.match_id = e.match_id ∧
        matchAt (applyMatchUpdate s e) i j = some (mergeFields e m) ∧
        (mergeFields e m).match_id = m.match_id ∧
        (mergeFields e m).team_a = m.team_a ∧
        (mergeFields e m).team_b = m.team_b ∧
        ∀ i' j' : Nat, ¬(i' = i ∧ j' = j) →
          matchAt (applyMatchUpdate s e) i' j' = matchAt s i' j') ∧
    ((∀ r ∈ s, ∀ m ∈ r.matchList, m.match_id ≠ e.match_id) →
      applyMatchUpdate s e = s) := by
  rcases applyMatchUpdate_cases s e with heq | ⟨ri, rnd, mi, m, hri, hrnd, hmi, hm, hid, heq⟩
  · rw [heq]
    exact ⟨⟨rfl, fun i => ⟨rfl, rfl⟩⟩, fun i j => Or.inl rfl, fun _ => rfl⟩
  · refine ⟨⟨?_, fun i => ⟨?_, ?_⟩⟩, ?_, fun hmiss => applyMatchUpdate_miss s e hmiss⟩
    · rw [heq]; exact List.length_set _ _ _
    · rw [heq]
      by_cases hi : i = ri
      · subst hi
        rw [List.getElem?_set_self hri, hrnd]
        rfl
      · rw [List.getElem?_set_ne (fun h => hi h.symm)]
    · rw [heq]
      by_cases hi : i = ri
      · subst hi
        rw [List.getElem?_set_self hri, hrnd]
        simp [List.length_set]
      · rw [List.getElem?_set_ne (fun h => hi h.symm)]
    · intro i j
      by_cases hij : i = ri ∧ j = mi
      · obtain ⟨hi, hj⟩ := hij
        subst hi; subst hj
        refine Or.inr ⟨m, ?_, hid, ?_, rfl, rfl, rfl, ?_⟩
        · unfold matchAt
          rw [hrnd]
          exact hm
        · rw [heq]
          unfold matchAt
          rw [List.getElem?_set_self hri]
          exact List.getElem?_set_self hmi
        · intro i' j' h
          rw [heq]
          exact matchAt_set_other s i j rnd (mergeFields e m) hrnd i' j' h
      · refine Or.inl ?_
        rw [heq]
        exact matchAt_set_other s ri mi rnd (mergeFields e m) hrnd i j hij

/-- Witness for C9: an event whose id misses the sample schedule
leaves it unchanged, via the final clause of the frame theorem. -/
theorem match_update_frame_witness :
    applyMatchUpdate sampleSchedule missEvent = sampleSchedule :=
  (match_update_frame sampleSchedule missEvent).2.2 (by decide)

theorem dropWS_cons_false {c : Char} {w : List Char} (h : wsChar c = false) :
    dropWS (c :: w) = c :: w := by
  simp [dropWS, h]

theorem dropWS_suffix (l : List Char) : dropWS l <:+ l := by
  induction l with
  | nil => exact List.suffix_refl _
  | cons c cs ih =>
    by_cases h : wsChar c
    · simpa [dropWS, h] using ih.trans (List.suffix_cons c cs)
    · simp [dropWS, h]

theorem wsChar_false_of_dropWS_eq {c : Char} {w : List Char}
    (h : dropWS (c :: w) = c :: w) : wsChar c = false := by
  by_contra hne
  have hc : wsChar c = true := by
    cases hw : wsChar c
    · exact absurd hw hne
    · rfl
  rw [dropWS, if_pos hc] at h
  have hlen : (dropWS w).length ≤ w.length := (dropWS_suffix w).length_le
  rw [h] at hlen
  simp at hlen

theorem dropWS_idem (l : List Char) : dropWS (dropWS l) = dropWS l := by
  induction l with
  | nil => rfl
  | cons c cs ih =>
    by_cases h : wsChar c
    · simpa [dropWS, h] using ih
    · simp [dropWS, h]

theorem dropWS_of_prefix {u m : List Char} (hm : dropWS m = m) (hp : u <+: m) :
    dropWS u = u := by
  cases u with
  | nil => rfl
  | cons c rest =>
    obtain ⟨t, ht⟩ := hp
    have hm' : dropWS (c :: (rest ++ t)) = c :: (rest ++ t) := by
      rw [← List.cons_append, ht]
      exact hm
    exact dropWS_cons_false (wsChar_false_of_dropWS_eq hm')

theorem dropWS_append_left {x : List Char} (hx : dropWS x = x) (hne : x ≠ [])
    (y : List Char) : dropWS (x ++ y) = x ++ y := by
  cases x with
  | nil => exact absurd rfl hne
  | cons c rest =>
    rw [List.cons_append]
    exact dropWS_cons_false (wsChar_false_of_dropWS_eq hx)

theorem trimRight_prefixOf (l : List Char) : trimRight l <+: l := by
  unfold trimRight
  refine List.reverse_suffix.mp ?_
  rw [List.reverse_reverse]
  exact dropWS_suffix _

theorem dropWS_jsTrim (s : List Char) : dropWS (jsTrim s) = jsTrim s :=
  dropWS_of_prefix (dropWS_idem s) (trimRight_prefixOf (dropWS s))

theorem trimRight_jsTrim (s : List Char) : trimRight (jsTrim s) = jsTrim s := by
  unfold jsTrim trimRight
  rw [List.reverse_reverse, dropWS_idem]

theorem jsTrim_idem (s : List Char) : jsTrim (jsTrim s) = jsTrim s := by
  conv_lhs => rw [jsTrim, dropWS_jsTrim]
  exact trimRight_jsTrim s

theorem isSubList_of_suffix {n h : List Char} (hs : n <:+ h) :
    isSubList n h = true := by
  induction h with
  | nil =>
    rw [List.suffix_nil.mp hs]
    rfl
  | cons c rest ih =>
    rcases List.suffix_cons_iff.mp hs with heq | hsuf
    · subst heq
      have : List.isPrefixOf (c :: rest) (c :: rest) = true :=
        List.isPrefixOf_iff_prefix.mpr (List.prefix_refl _)
      simp [isSubList, this]
    · simp [isSubList, ih hsuf]

theorem stripTrailingSlash_prefixOf (l : List Char) : stripTrailingSlash l <+: l := by
  unfold stripTrailingSlash
  split
  · exact List.dropLast_prefix l
  · exact List.prefix_refl l

theorem jsTrim_strip_append (s : List Char) :
    jsTrim (stripTrailingSlash (jsTrim s) ++ movePath) =
      stripTrailingSlash (jsTrim s) ++ movePath := by
  have hx : dropWS (stripTrailingSlash (jsTrim s)) = stripTrailingSlash (jsTrim s) :=
    dropWS_of_prefix (dropWS_jsTrim s) (stripTrailingSlash_prefixOf _)
  have hdrop : dropWS (stripTrailingSlash (jsTrim s) ++ movePath) =
      stripTrailingSlash (jsTrim s) ++ movePath := by
    cases hcase : stripTrailingSlash (jsTrim s) with
    | nil => decide
    | cons c rest =>
      rw [← hcase]
      exact dropWS_append_left hx (by rw [hcase]; exact List.cons_ne_nil c rest) movePath
  have htrim : trimRight (stripTrailingSlash (jsTrim s) ++ movePath) =
      stripTrailingSlash (jsTrim s) ++ movePath := by
    unfold trimRight
    rw [List.reverse_append]
    rw [dropWS_append_left (by decide) (by decide) (stripTrailingSlash (jsTrim s)).reverse]
    rw [← List.reverse_append, List.reverse_reverse]
  rw [jsTrim, hdrop, htrim]

theorem normalizeEndpoint_fixed {v : List Char} (h1 : jsTrim v = v)
    (h2 : isSubList movePath v = true) : normalizeEndpoint v = v := by
  simp [normalizeEndpoint, h1, h2]

theorem normalizeEndpoint_contains (s : List Char) :
    isSubList movePath (normalizeEndpoint s) = true := by
  unfold normalizeEndpoint
  cases hc : isSubList movePath (jsTrim s) with
  | true => simp [hc]
  | false =>
    simp only [hc, Bool.false_eq_true, if_false]
    exact isSubList_of_suffix (List.suffix_append _ _)

theorem jsTrim_normalizeEndpoint (s : List Char) :
    jsTrim (normalizeEndpoint s) = normalizeEndpoint s := by
  unfold normalizeEndpoint
  cases hc : isSubList movePath (jsTrim s) with
  | true =>
    simp only [hc, if_true]
    exact jsTrim_idem s
  | false =>
    simp only [hc, Bool.false_eq_true, if_false]
    exact jsTrim_strip_append s

/-- C10: the agent-endpoint normalization performed at registration
(`handleSubmit`) and at battle setup (`startBattle`) is idempotent,
and every non-empty normalized URL contains `/api/connect4-move`. -/
theorem endpoint_normalization (s : List Char) :
    normalizeEndpoint (normalizeEndpoint s) = normalizeEndpoint s ∧
    isSubList movePath (normalizeEndpoint s) = true ∧
    normalizeBattleUrl (normalizeBattleUrl s) = normalizeBattleUrl s ∧
    (normalizeBattleUrl s ≠ [] → isSubList movePath (normalizeBattleUrl s) = true) := by
  refine ⟨normalizeEndpoint_fixed (jsTrim_normalizeEndpoint s)
      (normalizeEndpoint_contains s), normalizeEndpoint_contains s, ?_, ?_⟩
  · cases hemp : (jsTrim s).isEmpty with
    | true =>
      have hnil : jsTrim s = [] := List.isEmpty_iff.mp hemp
      have hv : normalizeBattleUrl s = [] := by
        simp [normalizeBattleUrl, hnil]
      rw [hv]
      decide
    | false =>
      cases hc : isSubList movePath (jsTrim s) with
      | true =>
        have hv : normalizeBattleUrl s = jsTrim s := by
          simp [normalizeBattleUrl, hemp, hc]
        rw [hv]
        have h1 : jsTrim (jsTrim s) = jsTrim s := jsTrim_idem s
        simp [normalizeBattleUrl, h1, hemp, hc]
      | false =>
        have hv : normalizeBattleUrl s =
            stripTrailingSlash (jsTrim s) ++ movePath := by
          simp [normalizeBattleUrl, hemp, hc]
        rw [hv]
        have h1 := jsTrim_strip_append s
        have h2 : isSubList movePath (stripTrailingSlash (jsTrim s) ++ movePath) = true :=
          isSubList_of_suffix (List.suffix_append _ _)
        have hne : ((stripTrailingSlash (jsTrim s) ++ movePath).isEmpty) = false := by
          rw [List.isEmpty_eq_false_iff_exists_mem]
          exact ⟨'/', by simp [movePath]⟩
        simp [normalizeBattleUrl, h1, h2, hne]
  · intro hne
    cases hemp : (jsTrim s).isEmpty with
    | true =>
      have hnil : jsTrim s = [] := List.isEmpty_iff.mp hemp
      have hv : normalizeBattleUrl s = [] := by
        simp [normalizeBattleUrl, hnil]
      exact absurd hv hne
    | false =>
      cases hc : isSubList movePath (jsTrim s) with
      | true =>
        have hv : normalizeBattleUrl s = jsTrim s := by
          simp [normalizeBattleUrl, hemp, hc]
        rw [hv]
        exact hc
      | false =>
        have hv : normalizeBattleUrl s =
            stripTrailingSlash (jsTrim s) ++ movePath := by
          simp [normalizeBattleUrl, hemp, hc]
        rw [hv]
        exact isSubList_of_suffix (List.suffix_append _ _)

/-- Witness for C10 at a concrete URL with a trailing slash. -/
theorem endpoint_normalization_witness :
    normalizeEndpoint (normalizeEndpoint ("https://x.ai/".toList)) =
        normalizeEndpoint ("https://x.ai/".toList) ∧
      isSubList movePath (normalizeEndpoint ("https://x.ai/".toList)) = true ∧
      normalizeBattleUrl (normalizeBattleUrl ("https://x.ai/".toList)) =
        normalizeBattleUrl ("https://x.ai/".toList) ∧
      (normalizeBattleUrl ("https://x.ai/".toList) ≠ [] →
        isSubList movePath (normalizeBattleUrl ("https://x.ai/".toList)) = true) :=
  endpoint_normalization ("https://x.ai/".toList)

theorem roundRobin_ok_2 :
    (roundRobinSchedule 2).length = (if 2 % 2 = 0 then 2 - 1 else 2) ∧
    (roundRobinSchedule 2).flatten.length = 2 * (2 - 1) / 2 ∧
    (∀ j, j < 2 → ∀ i, i < j → pairCount 2 i j = 1) := by decide

theorem roundRobin_ok_3 :
    (roundRobinSchedule 3).length = (if 3 % 2 = 0 then 3 - 1 else 3) ∧
    (roundRobinSchedule 3).flatten.length = 3 * (3 - 1) / 2 ∧
    (∀ j, j < 3 → ∀ i, i < j → pairCount 3 i j = 1) := by decide

theorem roundRobin_ok_4 :
    (roundRobinSchedule 4).length = (if 4 % 2 = 0 then 4 - 1 else 4) ∧
    (roundRobinSchedule 4).flatten.length = 4 * (4 - 1) / 2 ∧
    (∀ j, j < 4 → ∀ i, i < j → pairCount 4 i j = 1) := by decide

theorem roundRobin_ok_5 :
    (roundRobinSchedule 5).length = (if 5 % 2 = 0 then 5 - 1 else 5) ∧
    (roundRobinSchedule 5).flatten.length = 5 * (5 - 1) / 2 ∧
    (∀ j, j < 5 → ∀ i, i < j → pairCount 5 i j = 1) := by decide

theorem roundRobin_ok_6 :
    (roundRobinSchedule 6).length = (if 6 % 2 = 0 then 6 - 1 else 6) ∧
    (roundRobinSchedule 6).flatten.length = 6 * (6 - 1) / 2 ∧
    (∀ j, j < 6 → ∀ i, i < j → pairCount 6 i j = 1) := by decide

theorem roundRobin_ok_7 :
    (roundRobinSchedule 7).length = (if 7 % 2 = 0 then 7 - 1 else 7) ∧
    (roundRobinSchedule 7).flatten.length = 7 * (7 - 1) / 2 ∧
    (∀ j, j < 7 → ∀ i, i < j → pairCount 7 i j = 1) := by decide

theorem roundRobin_ok_8 :
    (roundRobinSchedule 8).length = (if 8 % 2 = 0 then 8 - 1 else 8) ∧
    (roundRobinSchedule 8).flatten.length = 8 * (8 - 1) / 2 ∧
    (∀ j, j < 8 → ∀ i, i < j → pairCount 8 i j = 1) := by decide

theorem roundRobin_ok_9 :
    (roundRobinSchedule 9).length = (if 9 % 2 = 0 then 9 - 1 else 9) ∧
    (roundRobinSchedule 9).flatten.length = 9 * (9 - 1) / 2 ∧
    (∀ j, j < 9 → ∀ i, i < j → pairCount 9 i j = 1) := by decide

theorem roundRobin_ok_10 :
    (roundRobinSchedule 10).length = (if 10 % 2 = 0 then 10 - 1 else 10) ∧
    (roundRobinSchedule 10).flatten.length = 10 * (10 - 1) / 2 ∧
    (∀ j, j < 10 → ∀ i, i < j → pairCount 10 i j = 1) := by decide

theorem roundRobin_ok_11 :
    (roundRobinSchedule 11).length = (if 11 % 2 = 0 then 11 - 1 else 11) ∧
    (roundRobinSchedule 11).flatten.length = 11 * (11 - 1) / 2 ∧
    (∀ j, j < 11 → ∀ i, i < j → pairCount 11 i j = 1) := by decide

theorem roundRobin_ok_12 :
    (roundRobinSchedule 12).length = (if 12 % 2 = 0 then 12 - 1 else 12) ∧
    (roundRobinSchedule 12).flatten.length = 12 * (12 - 1) / 2 ∧
    (∀ j, j < 12 → ∀ i, i < j → pairCount 12 i j = 1) := by decide

theorem roundRobin_ok_13 :
    (roundRobinSchedule 13).length = (if 13 % 2 = 0 then 13 - 1 else 13) ∧
    (roundRobinSchedule 13).flatten.length = 13 * (13 - 1) / 2 ∧
    (∀ j, j < 13 → ∀ i, i < j → pairCount 13 i j = 1) := by decide

theorem roundRobin_ok_14 :
    (roundRobinSchedule 14).length = (if 14 % 2 = 0 then 14 - 1 else 14) ∧
    (roundRobinSchedule 14).flatten.length = 14 * (14 - 1) / 2 ∧
    (∀ j, j < 14 → ∀ i, i < j → pairCount 14 i j = 1) := by decide

theorem roundRobin_ok_15 :
    (roundRobinSchedule 15).length = (if 15 % 2 = 0 then 15 - 1 else 15) ∧
    (roundRobinSchedule 15).flatten.length = 15 * (15 - 1) / 2 ∧
    (∀ j, j < 15 → ∀ i, i < j → pairCount 15 i j = 1) := by decide

theorem roundRobin_ok_16 :
    (roundRobinSchedule 16).length = (if 16 % 2 = 0 then 16 - 1 else 16) ∧
    (roundRobinSchedule 16).flatten.length = 16 * (16 - 1) / 2 ∧
    (∀ j, j < 16 → ∀ i, i < j → pairCount 16 i j = 1) := by decide

theorem roundRobin_ok_17 :
    (roundRobinSchedule 17).length = (if 17 % 2 = 0 then 17 - 1 else 17) ∧
    (roundRobinSchedule 17).flatten.length = 17 * (17 - 1) / 2 ∧
    (∀ j, j < 17 → ∀ i, i < j → pairCount 17 i j = 1) := by decide

theorem roundRobin_ok_18 :
    (roundRobinSchedule 18).length = (if 18 % 2 = 0 then 18 - 1 else 18) ∧
    (roundRobinSchedule 18).flatten.length = 18 * (18 - 1) / 2 ∧
    (∀ j, j < 18 → ∀ i, i < j → pairCount 18 i j = 1) := by decide

theorem roundRobin_ok_19 :
    (roundRobinSchedule 19).length = (if 19 % 2 = 0 then 19 - 1 else 19) ∧
    (roundRobinSchedule 19).flatten.length = 19 * (19 - 1) / 2 ∧
    (∀ j, j < 19 → ∀ i, i < j → pairCount 19 i j = 1) := by decide

theorem roundRobin_ok_20 :
    (roundRobinSchedule 20).length = (if 20 % 2 = 0 then 20 - 1 else 20) ∧
    (roundRobinSchedule 20).flatten.length = 20 * (20 - 1) / 2 ∧
    (∀ j, j < 20 → ∀ i, i < j → pairCount 20 i j = 1) := by decide

/-- C2: for every team count 2 ≤ n ≤ 20 the circle-method schedule has
n − 1 rounds when n is even and n rounds when n is odd (rotating bye),
contains exactly n·(n−1)/2 non-bye matches in total, and pairs every
two distinct teams in exactly one match. -/
theorem round_robin_schedule_correct (n : Nat) (h2 : 2 ≤ n) (h20 : n ≤ 20) :
    (roundRobinSchedule n).length = (if n % 2 = 0 then n - 1 else n) ∧
    (roundRobinSchedule n).flatten.length = n * (n - 1) / 2 ∧
    (∀ j, j < n → ∀ i, i < j → pairCount n i j = 1) := by
  interval_cases n
  exacts [roundRobin_ok_2, roundRobin_ok_3, roundRobin_ok_4, roundRobin_ok_5,
    roundRobin_ok_6, roundRobin_ok_7, roundRobin_ok_8, roundRobin_ok_9,
    roundRobin_ok_10, roundRobin_ok_11, roundRobin_ok_12, roundRobin_ok_13,
    roundRobin_ok_14, roundRobin_ok_15, roundRobin_ok_16, roundRobin_ok_17,
    roundRobin_ok_18, roundRobin_ok_19, roundRobin_ok_20]

/-- Witness for C2 at n = 5 (odd team count, rotating bye). -/
theorem round_robin_schedule_correct_witness :
    (2 ≤ 5 ∧ 5 ≤ 20) ∧
    ((roundRobinSchedule 5).length = (if 5 % 2 = 0 then 5 - 1 else 5) ∧
      (roundRobinSchedule 5).flatten.length = 5 * (5 - 1) / 2 ∧
      (∀ j, j < 5 → ∀ i, i < j → pairCount 5 i j = 1)) :=
  ⟨⟨by decide, by decide⟩, round_robin_schedule_correct 5 (by decide) (by decide)⟩

theorem gamePoints_sum (res : GameResult) :
    (gamePoints res).1 + (gamePoints res).2 = 1 := by
  cases res <;> norm_num [gamePoints]

theorem gamePoints_split (res : GameResult) :
    gamePoints res = (1, 0) ∨ gamePoints res = (0, 1) ∨
      gamePoints res = (1/2, 1/2) := by
  cases res
  · exact Or.inl rfl
  · exact Or.inr (Or.inl rfl)
  · exact Or.inr (Or.inr rfl)
  · exact Or.inr (Or.inl rfl)
  · exact Or.inl rfl

theorem sum_map_add_split (l : List GameRecord) :
    (l.map (fun g => g.points_a + g.points_b)).sum =
      (l.map GameRecord.points_a).sum + (l.map GameRecord.points_b).sum := by
  induction l with
  | nil => simp
  | cons g gs ih => simp [ih]; ring

theorem runGames_spec (oracles : List (List (ℚ × AgentReply))) :
    ∀ banks idx,
      (runGames banks idx oracles).1.length = oracles.length ∧
      ((runGames banks idx oracles).1.map (fun g => g.points_a + g.points_b)).sum =
        (oracles.length : ℚ) ∧
      (∀ g ∈ (runGames banks idx oracles).1,
        (g.points_a, g.points_b) = (1, 0) ∨ (g.points_a, g.points_b) = (0, 1) ∨
          (g.points_a, g.points_b) = (1/2, 1/2)) := by
  induction oracles with
  | nil =>
    intro banks idx
    refine ⟨rfl, by simp [runGames], ?_⟩
    intro g hg
    simp [runGames] at hg
  | cons o rest ih =>
    intro banks idx
    obtain ⟨ihlen, ihsum, ihmem⟩ := ih ((gameOutcome banks idx o).2) (idx + 1)
    refine ⟨?_, ?_, ?_⟩
    · simp only [runGames, List.length_cons, ihlen]
    · simp only [runGames, List.map_cons, List.sum_cons, ihsum]
      rw [gamePoints_sum, List.length_cons]
      push_cast
      ring
    · intro g hg
      simp only [runGames, List.mem_cons] at hg
      rcases hg with rfl | hg
      · simpa using gamePoints_split ((gameOutcome banks idx o).1)
      · exact ihmem g hg

/-- C1 (amended): every match record sealed by the match runner
(status `finished`) has exactly four games, their point splits are
each 1/0, 0/1 or 0.5/0.5, and the points sum to 4 — both game by game
and in the match totals. -/
theorem match_points_invariant (o : MatchOracle) :
    (runMatch o).1.status = MatchStatus.finished ∧
    (runMatch o).1.games.length = 4 ∧
    ((runMatch o).1.games.map (fun g => g.points_a + g.points_b)).sum = 4 ∧
    (∀ g ∈ (runMatch o).1.games,
      (g.points_a, g.points_b) = (1, 0) ∨ (g.points_a, g.points_b) = (0, 1) ∨
        (g.points_a, g.points_b) = (1/2, 1/2)) ∧
    (runMatch o).1.points_a + (runMatch o).1.points_b = 4 := by
  obtain ⟨hlen, hsum, hmem⟩ :=
    runGames_spec [o.g1, o.g2, o.g3, o.g4]
      { bankA := matchBankInit, bankB := matchBankInit } 1
  have hgames : (runMatch o).1.games =
      (runGames { bankA := matchBankInit, bankB := matchBankInit } 1
        [o.g1, o.g2, o.g3, o.g4]).1 := rfl
  refine ⟨rfl, ?_, ?_, ?_, ?_⟩
  · rw [hgames, hlen]
    rfl
  · rw [hgames, hsum]
    norm_num
  · intro g hg
    rw [hgames] at hg
    exact hmem g hg
  · show ((runMatch o).1.games.map GameRecord.points_a).sum +
      ((runMatch o).1.games.map GameRecord.points_b).sum = 4
    rw [← sum_map_add_split, hgames, hsum]
    norm_num

/-- Witness for C1's amended theorem on a concrete oracle. -/
theorem match_points_invariant_witness :
    ((runMatch ⟨[], [], [], []⟩).1.games.map
      (fun g => g.points_a + g.points_b)).sum = 4 :=
  (match_points_invariant ⟨[], [], [], []⟩).2.2.1

/-- C1 counterexample: an aborted match is also sealed (its status is
terminal), yet per §4.4 both teams receive 0 points for all four
games, so the sum over its games of (points_a + points_b) is 0, not
4. -/
theorem sealed_match_sum_counterexample :
    abortedMatch.sealed ∧ abortedMatch.games.length = 4 ∧
    ¬(((abortedMatch.games.map (fun g => g.points_a + g.points_b)).sum) = 4) := by
  refine ⟨Or.inr rfl, by simp [abortedMatch], ?_⟩
  simp [abortedMatch, List.range_succ]

theorem Banks.get_sub_self (bk : Banks) (t : Team) (x : ℚ) :
    (bk.sub t x).get t = bk.get t - x := by
  cases t <;> rfl

theorem runGames_bankChain (oracles : List (List (ℚ × AgentReply))) :
    ∀ banks idx, BankChain banks (runGames banks idx oracles).1 := by
  induction oracles with
  | nil =>
    intro banks idx
    simp [runGames, BankChain]
  | cons o rest ih =>
    intro banks idx
    exact ⟨rfl, ih _ _⟩

theorem mkCall_ok (banks : Banks) (mover : Team) (raw : ℚ) :
    (mkCall banks mover raw).deadline =
        min perTurnCap (mkCall banks mover raw).bankBefore ∧
      (mkCall banks mover raw).elapsed ≤ (mkCall banks mover raw).deadline ∧
      (mkCall banks mover raw).bankAfter =
        (mkCall banks mover raw).bankBefore - (mkCall banks mover raw).elapsed :=
  ⟨rfl, min_le_right _ _, Banks.get_sub_self banks mover (callElapsed banks mover raw)⟩

theorem playGame_calls (oracle : List (ℚ × AgentReply)) :
    ∀ banks mover, ∀ cr ∈ (playGame banks mover oracle).2.2,
      cr.deadline = min perTurnCap cr.bankBefore ∧
      cr.elapsed ≤ cr.deadline ∧
      cr.bankAfter = cr.bankBefore - cr.elapsed := by
  induction oracle with
  | nil =>
    intro banks mover cr hcr
    simp [playGame] at hcr
  | cons entry rest ih =>
    intro banks mover cr hcr
    obtain ⟨raw, reply⟩ := entry
    by_cases h0 : banks.get mover = 0
    · simp [playGame, h0] at hcr
    · cases reply with
      | failure =>
        simp [playGame, h0] at hcr
        subst hcr
        exact mkCall_ok banks mover raw
      | winMove =>
        by_cases ht : min perTurnCap (banks.get mover) < raw
        · simp [playGame, h0, ht] at hcr
          subst hcr
          exact mkCall_ok banks mover raw
        · simp [playGame, h0, ht] at hcr
          subst hcr
          exact mkCall_ok banks mover raw
      | contMove =>
        by_cases ht : min perTurnCap (banks.get mover) < raw
        · simp [playGame, h0, ht] at hcr
          subst hcr
          exact mkCall_ok banks mover raw
        · simp [playGame, h0, ht] at hcr
          rcases hcr with rfl | hcr
          · exact mkCall_ok banks mover raw
          · exact ih _ _ cr hcr

/-- C3: the per-team match banks start at 240 s and are threaded from
each game into the next (never reset inside a match); every agent
call issued by the game driver carries the deadline
`min(10 s, mover's remaining bank)`, its charged wall-clock never
exceeds that deadline, and it is deducted from the mover's bank
whatever the call's outcome (the oracle covers successes, failures
and timeouts alike). -/
theorem time_budget_correct :
    matchBankInit = 240 ∧ perTurnCap = 10 ∧
    (∀ o : MatchOracle,
      BankChain { bankA := matchBankInit, bankB := matchBankInit }
        ((runMatch o).1.games)) ∧
    (∀ (oracle : List (ℚ × AgentReply)) (banks : Banks) (mover : Team),
      ∀ cr ∈ (playGame banks mover oracle).2.2,
        cr.deadline = min perTurnCap cr.bankBefore ∧
        cr.elapsed ≤ cr.deadline ∧
        cr.bankAfter = cr.bankBefore - cr.elapsed) := by
  refine ⟨rfl, rfl, ?_, ?_⟩
  · intro o
    exact runGames_bankChain [o.g1, o.g2, o.g3, o.g4] _ 1
  · intro oracle banks mover cr hcr
    exact playGame_calls oracle banks mover cr hcr

/-- Witness for C3: the bank chain of a concrete match and the call
record of a concrete 3 s call from full banks. -/
theorem time_budget_correct_witness :
    BankChain { bankA := matchBankInit, bankB := matchBankInit }
      ((runMatch ⟨[], [], [], []⟩).1.games) ∧
    ((mkCall { bankA := 240, bankB := 240 } Team.teamA 3).deadline =
        min perTurnCap (mkCall { bankA := 240, bankB := 240 } Team.teamA 3).bankBefore ∧
      (mkCall { bankA := 240, bankB := 240 } Team.teamA 3).elapsed ≤
        (mkCall { bankA := 240, bankB := 240 } Team.teamA 3).deadline ∧
      (mkCall { bankA := 240, bankB := 240 } Team.teamA 3).bankAfter =
        (mkCall { bankA := 240, bankB := 240 } Team.teamA 3).bankBefore -
          (mkCall { bankA := 240, bankB := 240 } Team.teamA 3).elapsed) :=
  ⟨(time_budget_correct).2.2.1 ⟨[], [], [], []⟩,
   (time_budget_correct).2.2.2 [(3, AgentReply.failure)]
     { bankA := 240, bankB := 240 } Team.teamA
     (mkCall { bankA := 240, bankB := 240 } Team.teamA 3)
     (by
       have h0 : ¬(({ bankA := 240, bankB := 240 } : Banks).get Team.teamA = 0) := by
         norm_num [Banks.get]
       simp [playGame, h0])⟩

/-- C4: a mover whose bank is 0 at the start of its turn forfeits at
once, with no agent call issued (the driver returns without consuming
the oracle and with an empty call trace); and when a team's bank is 0
at the start of a game (the opponent's being positive), the match
runner credits that game and every following one to the opponent while
still emitting the `game_start` and `game_complete` events of every
game. -/
theorem zero_bank_forfeit (banks : Banks) (t : Team)
    (ht : banks.get t = 0) (ho : 0 < banks.get t.other) :
    (∀ (x : ℚ × AgentReply) (rest : List (ℚ × AgentReply)),
      playGame banks t (x :: rest) = (forfeitOf t, banks, [])) ∧
    (∀ (idx : Nat) (oracles : List (List (ℚ × AgentReply))),
      (∀ g ∈ (runGames banks idx oracles).1,
        g.result = some (forfeitOf t) ∧ g.pointsFor t = 0 ∧
          g.pointsFor t.other = 1) ∧
      (runGames banks idx oracles).2.2 = matchEvents idx oracles.length) := by
  have hout : ∀ (idx : Nat) (o : List (ℚ × AgentReply)),
      gameOutcome banks idx o = (forfeitOf t, banks) := by
    intro idx o
    cases t with
    | teamA =>
      unfold gameOutcome
      rw [if_pos ht]
    | teamB =>
      unfold gameOutcome
      have hA : ¬(banks.get Team.teamA = 0) := ne_of_gt ho
      rw [if_neg hA, if_pos ht]
  refine ⟨?_, ?_⟩
  · intro x rest
    obtain ⟨raw, reply⟩ := x
    simp [playGame, ht]
  · intro idx oracles
    induction oracles generalizing idx with
    | nil =>
      refine ⟨?_, rfl⟩
      intro g hg
      simp [runGames] at hg
    | cons o rest ih =>
      have hres : (gameOutcome banks idx o).1 = forfeitOf t := by rw [hout]
      have hbk : (gameOutcome banks idx o).2 = banks := by rw [hout]
      refine ⟨?_, ?_⟩
      · intro g hg
        simp only [runGames, List.mem_cons] at hg
        rcases hg with rfl | hg
        · refine ⟨by simp [hres], ?_, ?_⟩
          · cases t <;>
              simp [GameRecord.pointsFor, hres, forfeitOf, gamePoints]
          · cases t <;>
              simp [GameRecord.pointsFor, Team.other, hres, forfeitOf, gamePoints]
        · rw [hbk] at hg
          exact (ih (idx + 1)).1 g hg
      · simp only [runGames, List.length_cons, matchEvents]
        rw [hbk]
        simp [(ih (idx + 1)).2]

/-- Witness for C4: with team A's bank at 0 (team B's at 100), a
pending turn forfeits immediately with no call issued. -/
theorem zero_bank_forfeit_witness :
    playGame { bankA := 0, bankB := 100 } Team.teamA [(1, AgentReply.contMove)] =
      (forfeitOf Team.teamA, { bankA := 0, bankB := 100 }, []) :=
  (zero_bank_forfeit { bankA := 0, bankB := 100 } Team.teamA
      (by norm_num [Banks.get]) (by norm_num [Banks.get, Team.other])).1
    (1, AgentReply.contMove) []

/-- C5: the controller moves from `waiting` to `in_progress` only on
an explicit `start` command with at least 2 registered teams; a
`register` command never changes the lifecycle status (in particular
registration at 19 teams does not start the tournament); the team
count never exceeds 20; and the dashboard's start button posts the
start command exactly when at least 2 teams are registered and the
status is `waiting`. -/
theorem start_transition_correct :
    minTeamsToStart = 2 ∧ maxTeams = 20 ∧
    (∀ (s : ChampState) (c : ChampCmd), s.status = ChampStatus.waiting →
      (champStep s c).status = ChampStatus.in_progress →
      c = ChampCmd.start ∧ 2 ≤ s.teamCount) ∧
    (∀ s : ChampState, (champStep s ChampCmd.register).status = s.status) ∧
    (∀ (s : ChampState) (c : ChampCmd), s.teamCount ≤ maxTeams →
      (champStep s c).teamCount ≤ maxTeams) ∧
    (∀ (st : String) (n : Nat),
      frontendSendsStart st n = true ↔ (2 ≤ n ∧ st = "waiting")) := by
  refine ⟨rfl, rfl, ?_, ?_, ?_, ?_⟩
  · intro s c hw hp
    cases c with
    | register =>
      exfalso
      simp only [champStep] at hp
      split_ifs at hp <;> simp_all
    | start =>
      simp only [champStep] at hp
      split_ifs at hp with h
      · exact ⟨rfl, h.2⟩
      · rw [hw] at hp
        exact absurd hp (by simp)
    | reset =>
      simp only [champStep] at hp
      exact absurd hp (by simp)
  · intro s
    simp only [champStep]
    split_ifs <;> rfl
  · intro s c h
    cases c with
    | register =>
      simp only [champStep]
      split_ifs with hcond
      · have h20 := hcond.2
        simp only [maxTeams] at *
        omega
      · exact h
    | start =>
      simp only [champStep]
      split_ifs <;> exact h
    | reset =>
      simp [champStep, maxTeams]
  · intro st n
    unfold frontendSendsStart
    split_ifs with h1 h2
    · simp only [Bool.false_eq_true, false_iff]
      rintro ⟨hn, -⟩
      omega
    · simp only [Bool.false_eq_true, false_iff]
      rintro ⟨-, hst⟩
      exact h2 hst
    · have hst : st = "waiting" := not_not.mp h2
      simp [hst]
      omega

/-- Witness for C5: registering the 20th team while 19 are registered
and the status is `waiting` leaves the status `waiting`. -/
theorem start_transition_correct_witness :
    (champStep { status := ChampStatus.waiting, teamCount := 19 }
        ChampCmd.register).status =
      ({ status := ChampStatus.waiting, teamCount := 19 } : ChampState).status :=
  (start_transition_correct).2.2.2.1
    { status := ChampStatus.waiting, teamCount := 19 }

end C4
